import Mathlib

/-!
Verification of the Binance futures RSI radar application (canonical variant
of `src/app.js`, the one with the concurrent worker pool and rank resolver).

The JavaScript source is shallowly embedded: numbers are modelled as rationals
(the algorithms perform only field arithmetic on parsed floats), JS objects
used as string-keyed dictionaries become functions into `Option`, and the
falsy conventions of JS (`undefined`, `0`, `""` are falsy) are modelled
explicitly at each use site.
-/

namespace Radar

/-- Consecutive differences of a closing-price list:
`diffs [c0, c1, c2, ...] = [c1 - c0, c2 - c1, ...]`, matching the loop
variable `diff = closes[i] - closes[i-1]` in `calculateRSI`. -/
def diffs : List ℚ → List ℚ
  | a :: b :: rest => (b - a) :: diffs (b :: rest)
  | _ => []

/-- One iteration of the smoothing loop of `calculateRSI` (the
`RE-IMPLEMENTATION for stability` loop): given the running
`(avgGain, avgLoss)` pair and the current difference, produce the updated
pair via `avg = (avg*(period-1) + current)/period`. -/
def smoothStep (period : Nat) (gl : ℚ × ℚ) (d : ℚ) : ℚ × ℚ :=
  let currentGain : ℚ := if d > 0 then d else 0
  let currentLoss : ℚ := if d < 0 then -d else 0
  ((gl.1 * ((period : ℚ) - 1) + currentGain) / (period : ℚ),
   (gl.2 * ((period : ℚ) - 1) + currentLoss) / (period : ℚ))

/-- The `gains` accumulator of the initial loop of `calculateRSI`
(`for i = 1; i <= period`): sum of the nonnegative differences among the
first `period` of them (`diff >= 0` feeds the gains branch). -/
def initGains (period : Nat) (ds : List ℚ) : ℚ :=
  ((ds.take period).map (fun d => if d ≥ 0 then d else 0)).sum

/-- The `losses` accumulator of the initial loop of `calculateRSI`: sum of
`Math.abs(diff)` over the strictly negative differences among the first
`period` of them. -/
def initLosses (period : Nat) (ds : List ℚ) : ℚ :=
  ((ds.take period).map (fun d => if d ≥ 0 then 0 else -d)).sum

/-- The tail of `calculateRSI` after the loops: given the final
`(avgGain, avgLoss)`, return 100 when the average loss is zero, and
`100 - 100/(1 + avgGain/avgLoss)` otherwise. -/
def rsiOf (avg : ℚ × ℚ) : ℚ :=
  if avg.2 = 0 then 100 else 100 - (100 / (1 + avg.1 / avg.2))

/-- Embedding of `calculateRSI(closes, period)` from `src/app.js`
(lines 533-582): return 0 on insufficient data; average the gains and the
losses over the first `period` consecutive differences; smooth the remaining
differences with `smoothStep`; finish with `rsiOf`. -/
def calculateRSI (closes : List ℚ) (period : Nat) : ℚ :=
  if closes.length < period + 1 then 0
  else
    rsiOf (((diffs closes).drop period).foldl (smoothStep period)
      (initGains period (diffs closes) / (period : ℚ),
       initLosses period (diffs closes) / (period : ℚ)))

/-- One row of the 24h ticker snapshot built by `fetch24hTicker`:
`{price, volume, priceChangePercent}`, each parsed from a string. -/
structure TickerStat where
  price : ℚ
  volume : ℚ
  priceChangePercent : ℚ
deriving DecidableEq

/-- The `CONFIG` object of the canonical variant (lines 395-401): these five
fields are the whole configuration surface of the scanner. -/
structure Config where
  minVolume : ℚ
  rsiLimit : Nat
  concurrency : Nat
  cacheTTL : ℤ
  rankCacheTTL : ℤ
deriving DecidableEq

/-- The literal `CONFIG` values of `src/app.js`. -/
def CONFIG : Config :=
  { minVolume := 0, rsiLimit := 35, concurrency := 40,
    cacheTTL := 60000, rankCacheTTL := 3600000 }

/-- JS `x || d` on an optional number: the default is taken when the value is
absent (`undefined`) or `0`, both falsy in JS. -/
def jsOr (o : Option ℚ) (d : ℚ) : ℚ :=
  match o with
  | some x => if x = 0 then d else x
  | none => d

/-- One entry of the product feed consumed by `fetchProductData`: quote
asset `q`, base asset `b`, price `c` and circulating supply `cs` (the latter
two may be absent, which JS reads as falsy `undefined`/`null`). -/
structure Product where
  q : String
  b : String
  c : Option ℚ
  cs : Option ℚ
deriving DecidableEq

/-- JS truthiness of an optional numeric field (`item.cs`): present and
nonzero. -/
def jsNumTruthy : Option ℚ → Bool
  | some x => x != 0
  | none => false

/-- An element of `mcapList`: base asset with computed market cap. -/
structure McapEntry where
  base : String
  mcap : ℚ
deriving DecidableEq

/-- The `mcapList` construction of `updateData` (lines 634-646): keep feed
entries quoted in USDT with a truthy circulating supply, read the price as
`parseFloat(item.c || 0)`, and push `{base, mcap := price * cs}` when both
price and supply are positive. -/
def mcapEntries (productList : List Product) : List McapEntry :=
  productList.filterMap (fun item =>
    if item.q = "USDT" ∧ jsNumTruthy item.cs then
      let price := jsOr item.c 0
      let cs := jsOr item.cs 0
      if price > 0 ∧ cs > 0 then some { base := item.b, mcap := price * cs }
      else none
    else none)

/-- The `mcapList.sort((a, b) => b.mcap - a.mcap)` step: a stable sort into
market-cap-descending order (JS `Array.prototype.sort` is stable, as is
`List.mergeSort`). -/
def sortedEntries (productList : List Product) : List McapEntry :=
  (mcapEntries productList).mergeSort (fun a b => decide (b.mcap ≤ a.mcap))

/-- JS falsiness of a rank lookup (`!rankMap[base]` and `r || 'N/A'`):
absent or zero. -/
def jsFalsyRank : Option Nat → Bool
  | none => true
  | some k => k == 0

/-- The `mcapList.forEach((item, index) => ...)` loop building `rankMap`
(lines 652-658): walk the sorted entries with a running index, assigning
`index + 1` to a base asset only when its current entry is falsy. -/
def buildRankMapAux : Nat → (String → Option Nat) → List McapEntry → (String → Option Nat)
  | _, m, [] => m
  | idx, m, e :: rest =>
    let next := if jsFalsyRank (m e.base) then Function.update m e.base (some (idx + 1)) else m
    buildRankMapAux (idx + 1) next rest

/-- `rankMap` as built by `updateData` from the already-sorted `mcapList`. -/
def buildRankMap (entries : List McapEntry) : String → Option Nat :=
  buildRankMapAux 0 (fun _ => none) entries

/-- Character-list test for "starts with", used to model the JS string
operations without relying on byte positions. -/
def charsStart : List Char → List Char → Bool
  | [], _ => true
  | _ :: _, [] => false
  | p :: ps, c :: cs => p == c && charsStart ps cs

/-- Removal of the first occurrence of `pat` from a character list: the model
of JS `String.prototype.replace(pat, '')` with a string pattern, which
replaces only the first occurrence. -/
def removeFirstChars (pat : List Char) : List Char → List Char
  | [] => []
  | c :: rest =>
    if charsStart pat (c :: rest) then (c :: rest).drop pat.length
    else c :: removeFirstChars pat rest

/-- String wrapper for `removeFirstChars`: JS `s.replace(pat, '')`. -/
def removeFirstStr (pat s : String) : String := ⟨removeFirstChars pat.data s.data⟩

/-- JS `s.startsWith(pat)`. -/
def strStartsWith (s pat : String) : Bool := charsStart pat.data s.data

/-- JS `s.substring(n)` (ASCII content, so code units coincide with chars). -/
def strDrop (s : String) (n : Nat) : String := ⟨s.data.drop n⟩

/-- JS `s.endsWith(pat)` (used only by the specification-worded resolver). -/
def strEndsWith (s pat : String) : Bool := charsStart pat.data.reverse s.data.reverse

/-- Drop the last `n` characters (used only by the specification-worded
resolver). -/
def strDropRight (s : String) (n : Nat) : String := ⟨(s.data.reverse.drop n).reverse⟩

/-- The rank-lookup closure inside `processSymbol` (lines 699-707):
`base = baseMap[symbol] || symbol.replace('USDT','')`, look `base` up in the
rank map, fall back to the remainder after a `1000` prefix when the lookup is
falsy, and produce `N/A` (here `none`) when the final lookup is still falsy. -/
def resolveRank (baseMap : String → Option String) (rankMap : String → Option Nat)
    (symbol : String) : Option Nat :=
  let base :=
    match baseMap symbol with
    | some b => if b = "" then removeFirstStr "USDT" symbol else b
    | none => removeFirstStr "USDT" symbol
  let r0 := rankMap base
  let r1 :=
    if jsFalsyRank r0 && strStartsWith base "1000" then rankMap (strDrop base 4)
    else r0
  if jsFalsyRank r1 then none else r1

/-- One result row produced by `processSymbol` for a qualifying symbol. -/
structure ScanResult where
  symbol : String
  volume : ℚ
  funding : ℚ
  interval : ℚ
  rank : Option Nat
  rsi1h : ℚ
  rsi4h : ℚ
deriving DecidableEq

/-- One invocation of the kline accessor `fetchKlines(symbol, interval,
limit)`. -/
structure KlineCall where
  symbol : String
  interval : String
  limit : Nat
deriving DecidableEq

/-- The `// Found a match!` record literal of `processSymbol` (lines
691-710): volume (kept for sorting), funding (default 0), funding interval
(default 8), resolved rank and both RSI readings. -/
def scanRow (cfg : Config) (fetch : String → String → Nat → List ℚ)
    (stats : String → Option TickerStat) (fundingMap : String → Option ℚ)
    (fundingIntervals : String → Option ℚ) (baseMap : String → Option String)
    (rankMap : String → Option Nat) (symbol : String) : ScanResult :=
  { symbol := symbol
    volume := jsOr ((stats symbol).map TickerStat.volume) 0
    funding := jsOr (fundingMap symbol) 0
    interval := jsOr (fundingIntervals symbol) 8
    rank := resolveRank baseMap rankMap symbol
    rsi1h := calculateRSI (fetch symbol "1h" cfg.rsiLimit) 6
    rsi4h := calculateRSI (fetch symbol "4h" cfg.rsiLimit) 6 }

/-- Embedding of `processSymbol` (lines 672-711), instrumented with the list
of kline-accessor calls it issues, in order. The data source is a function
`fetch` (a deterministic data client); stage A fetches the 1h series and
computes RSI at period 6; a reading below 90 discards the symbol before any
4h call; otherwise the 4h series is fetched, and a reading below 80 discards
the symbol; survivors are materialised as a `scanRow`. -/
def processSymbolT (cfg : Config) (fetch : String → String → Nat → List ℚ)
    (stats : String → Option TickerStat) (fundingMap : String → Option ℚ)
    (fundingIntervals : String → Option ℚ) (baseMap : String → Option String)
    (rankMap : String → Option Nat) (symbol : String) :
    Option ScanResult × List KlineCall :=
  let k1h := fetch symbol "1h" cfg.rsiLimit
  let rsi1h := calculateRSI k1h 6
  if rsi1h < 90 then (none, [⟨symbol, "1h", cfg.rsiLimit⟩])
  else
    let k4h := fetch symbol "4h" cfg.rsiLimit
    let rsi4h := calculateRSI k4h 6
    let calls := [⟨symbol, "1h", cfg.rsiLimit⟩, ⟨symbol, "4h", cfg.rsiLimit⟩]
    if rsi4h < 80 then (none, calls)
    else
      (some (scanRow cfg fetch stats fundingMap fundingIntervals baseMap rankMap symbol),
       calls)

/-- The result component of `processSymbol`. -/
def processSymbol (cfg : Config) (fetch : String → String → Nat → List ℚ)
    (stats : String → Option TickerStat) (fundingMap : String → Option ℚ)
    (fundingIntervals : String → Option ℚ) (baseMap : String → Option String)
    (rankMap : String → Option Nat) (symbol : String) : Option ScanResult :=
  (processSymbolT cfg fetch stats fundingMap fundingIntervals baseMap rankMap symbol).1

/-- `stats[s]?.volume || 0`. -/
def tickerVolume (stats : String → Option TickerStat) (s : String) : ℚ :=
  jsOr ((stats s).map TickerStat.volume) 0

/-- `stats[s]?.priceChangePercent || 0`. -/
def tickerChange (stats : String → Option TickerStat) (s : String) : ℚ :=
  jsOr ((stats s).map TickerStat.priceChangePercent) 0

/-- The candidate list handed to the worker pool (`TARGET_SYMBOLS`): symbols
whose 24h volume reaches `CONFIG.minVolume`, sorted by 24h percent change
descending (lines 616-627). -/
def candidateOrder (cfg : Config) (stats : String → Option TickerStat)
    (symbols : List String) : List String :=
  (symbols.filter (fun s => decide (cfg.minVolume ≤ tickerVolume stats s))).mergeSort
    (fun a b => decide (tickerChange stats b ≤ tickerChange stats a))

/-- The pure data pipeline of `updateData` (lines 599-746): filter and
pre-sort the candidates, build the rank map from the product feed, evaluate
each candidate with `processSymbol` (the worker pool aggregates exactly these
per-symbol results; see the pool model below), and sort the surviving results
by volume descending before handing them to rendering. -/
def scanPipeline (cfg : Config) (fetch : String → String → Nat → List ℚ)
    (symbols : List String) (baseMap : String → Option String)
    (stats : String → Option TickerStat) (fundingMap : String → Option ℚ)
    (fundingIntervals : String → Option ℚ) (productList : List Product) :
    List ScanResult :=
  let rankMap := buildRankMap (sortedEntries productList)
  ((candidateOrder cfg stats symbols).filterMap
      (fun s => processSymbol cfg fetch stats fundingMap fundingIntervals baseMap rankMap s)).mergeSort
    (fun a b => decide (b.volume ≤ a.volume))

/-- The `CACHE.products` cell: previously fetched product list (initially
empty) and its store timestamp. -/
structure ProductsCache where
  data : List Product
  timestamp : ℤ
deriving DecidableEq

/-- Outcome of one attempt to fetch the product feed: either the transport
or JSON parse throws, or a payload arrives carrying a `success` flag and an
optional `data` list. -/
inductive FeedOutcome where
  | transportError : FeedOutcome
  | payload (success : Bool) (data : Option (List Product)) : FeedOutcome
deriving DecidableEq

/-- Embedding of `fetchProductData` (lines 483-504): serve the cache while it
is nonempty and fresh; on a successful payload with data, cache and return
it; on a payload without `success` or without `data`, return the empty list;
on a transport or parse error, return whatever the cache holds (the JS
`CACHE.products.data || []`, where a list is always truthy). Returns the
produced list together with the updated cache cell. -/
def fetchProductData (cfg : Config) (now : ℤ) (cache : ProductsCache)
    (outcome : FeedOutcome) : List Product × ProductsCache :=
  if cache.data ≠ [] ∧ now - cache.timestamp < cfg.rankCacheTTL then
    (cache.data, cache)
  else
    match outcome with
    | .transportError => (cache.data, cache)
    | .payload success data =>
      match success, data with
      | true, some d => (d, { data := d, timestamp := now })
      | _, _ => ([], cache)

/-- Modelled from the spec wording of rank resolution, for comparison with
the code's `resolveRank`: "look up the symbol's base asset (falling back to
the symbol with its quote suffix stripped when the base-asset map has no
entry); if that base asset is absent from the rank map and it begins with
the leveraged-token prefix 1000, the rank of the unprefixed remainder is
used when it exists in the map; if no lookup succeeds, the resolved rank is
the unresolved marker". -/
def resolveRankSpec (baseMap : String → Option String) (rankMap : String → Option Nat)
    (symbol : String) : Option Nat :=
  let base :=
    match baseMap symbol with
    | some b => b
    | none => if strEndsWith symbol "USDT" then strDropRight symbol 4 else symbol
  match rankMap base with
  | some r => some r
  | none =>
    if strStartsWith base "1000" then rankMap (strDrop base 4)
    else none

/-- The resolver worded as the code has it: identical to `resolveRankSpec`
except that the fallback base asset is the symbol with the FIRST occurrence
of `USDT` removed (JS `symbol.replace('USDT', '')`), not the quote suffix
stripped. -/
def resolveRankFirstOcc (baseMap : String → Option String) (rankMap : String → Option Nat)
    (symbol : String) : Option Nat :=
  let base :=
    match baseMap symbol with
    | some b => b
    | none => removeFirstStr "USDT" symbol
  match rankMap base with
  | some r => some r
  | none =>
    if strStartsWith base "1000" then rankMap (strDrop base 4)
    else none

/-- State of the concurrent worker pool of `updateData` (lines 663-737):
the shared cursor `index`, one slot per worker holding the candidate index
it is currently processing (`none` when between symbols), the list of fully
processed candidate indices in completion order, and the shared `results`
array. -/
structure PoolState where
  cursor : Nat
  pending : List (Option Nat)
  done : List Nat
  results : List ScanResult
deriving DecidableEq

/-- Small-step semantics of the worker pool. JS is single-threaded and a
worker yields control only at `await`, so `const currentIndex = index++`
together with the guard `index < total` is one atomic step (`claim`), and
the completion of `processSymbol` together with the conditional
`results.push` is another (`finish`). `prc` is the per-symbol evaluation,
a pure function because the data source is fixed and deterministic. -/
inductive PoolStep (targets : List String) (prc : String → Option ScanResult) :
    PoolState → PoolState → Prop
  | claim (s : PoolState) (w : Nat) (hw : s.pending.get? w = some none)
      (hc : s.cursor < targets.length) :
      PoolStep targets prc s
        ⟨s.cursor + 1, s.pending.set w (some s.cursor), s.done, s.results⟩
  | finish (s : PoolState) (w i : Nat) (hw : s.pending.get? w = some (some i)) :
      PoolStep targets prc s
        ⟨s.cursor, s.pending.set w none, s.done ++ [i],
         s.results ++ (prc (targets.getD i "")).toList⟩

/-- The pool before any worker runs: cursor at 0, `n` idle workers
(`Array(Math.min(CONCURRENCY, total))`), nothing processed. -/
def initPool (n : Nat) : PoolState :=
  ⟨0, List.replicate n none, [], []⟩

/-- A pool state in which `await Promise.all(workers)` has resolved: every
worker has observed `index >= total` and holds no symbol. -/
def PoolFinal (targets : List String) (s : PoolState) : Prop :=
  targets.length ≤ s.cursor ∧ ∀ p ∈ s.pending, p = none

/-! ### Lemmas about the indicator engine -/

theorem diffs_nonneg : ∀ (l : List ℚ), l.Chain' (· ≤ ·) → ∀ d ∈ diffs l, 0 ≤ d
  | [], _, d, hd => by simp [diffs] at hd
  | [_], _, d, hd => by simp [diffs] at hd
  | a :: b :: rest, hl, d, hd => by
    rw [List.chain'_cons] at hl
    simp only [diffs, List.mem_cons] at hd
    rcases hd with rfl | hd
    · linarith [hl.1]
    · exact diffs_nonneg (b :: rest) hl.2 d hd

theorem smooth_preserves_zero_loss (period : Nat) :
    ∀ (rest : List ℚ) (g : ℚ), (∀ d ∈ rest, 0 ≤ d) →
      (rest.foldl (smoothStep period) (g, 0)).2 = 0
  | [], _, _ => rfl
  | d :: rest, g, h => by
    have hd : ¬ d < 0 := not_lt.2 (h d (List.mem_cons_self d rest))
    have hstep : smoothStep period (g, 0) d =
        ((g * ((period : ℚ) - 1) + (if d > 0 then d else 0)) / (period : ℚ), 0) := by
      simp [smoothStep, hd]
    rw [List.foldl_cons, hstep]
    exact smooth_preserves_zero_loss period rest _
      (fun x hx => h x (List.mem_cons_of_mem d hx))

theorem smooth_preserves_nonneg (period : Nat) (hp : 0 < period) :
    ∀ (rest : List ℚ) (gl : ℚ × ℚ), 0 ≤ gl.1 → 0 ≤ gl.2 →
      0 ≤ (rest.foldl (smoothStep period) gl).1 ∧
      0 ≤ (rest.foldl (smoothStep period) gl).2
  | [], gl, hg, hl => ⟨hg, hl⟩
  | d :: rest, gl, hg, hl => by
    have h1 : (1:ℚ) ≤ (period : ℚ) := by exact_mod_cast hp
    have hcg : (0:ℚ) ≤ if d > 0 then d else 0 := by
      by_cases h : d > 0 <;> simp [h] <;> linarith
    have hcl : (0:ℚ) ≤ if d < 0 then -d else 0 := by
      by_cases h : d < 0 <;> simp [h] <;> linarith
    rw [List.foldl_cons]
    refine smooth_preserves_nonneg period hp rest _ ?_ ?_
    · exact div_nonneg (add_nonneg (mul_nonneg hg (by linarith)) hcg) (by positivity)
    · exact div_nonneg (add_nonneg (mul_nonneg hl (by linarith)) hcl) (by positivity)

theorem initGains_nonneg (period : Nat) (ds : List ℚ) : 0 ≤ initGains period ds := by
  apply List.sum_nonneg
  intro x hx
  simp only [initGains, List.mem_map] at hx
  obtain ⟨d, _, rfl⟩ := hx
  by_cases h : d ≥ 0 <;> simp [h] <;> linarith

theorem initLosses_nonneg (period : Nat) (ds : List ℚ) : 0 ≤ initLosses period ds := by
  apply List.sum_nonneg
  intro x hx
  simp only [initLosses, List.mem_map] at hx
  obtain ⟨d, _, rfl⟩ := hx
  by_cases h : d ≥ 0 <;> simp [h] <;> linarith

/-- C4: with fewer closes than `period + 1`, `calculateRSI` answers 0 whatever
the closes are. -/
theorem rsi_insufficient_data (closes : List ℚ) (period : Nat)
    (h : closes.length < period + 1) : calculateRSI closes period = 0 := by
  simp [calculateRSI, h]

/-- Witness for C4 at the concrete input `closes = [3, 250]`, `period = 6`. -/
theorem rsi_insufficient_data_witness :
    ([(3:ℚ), 250].length < 6 + 1) ∧ calculateRSI [3, 250] 6 = 0 :=
  ⟨by decide, rsi_insufficient_data [3, 250] 6 (by decide)⟩

/-- C5: on a monotonically non-decreasing closing sequence of sufficient
length (all-flat included), every difference is nonnegative, the average
loss stays zero through the smoothing loop, and `calculateRSI` returns
exactly 100. -/
theorem rsi_nondecreasing_eq_100 (closes : List ℚ) (period : Nat)
    (_hp : 0 < period) (hlen : period + 1 ≤ closes.length)
    (hmono : closes.Chain' (· ≤ ·)) :
    calculateRSI closes period = 100 := by
  have hnd : ∀ d ∈ diffs closes, 0 ≤ d := diffs_nonneg closes hmono
  have hloss : initLosses period (diffs closes) = 0 := by
    apply List.sum_eq_zero
    intro x hx
    simp only [initLosses, List.mem_map] at hx
    obtain ⟨d, hd, rfl⟩ := hx
    have : (0:ℚ) ≤ d := hnd d (List.take_subset _ _ hd)
    simp [this]
  rw [calculateRSI, if_neg (not_lt.2 hlen), hloss, zero_div]
  have hfin : (((diffs closes).drop period).foldl (smoothStep period)
      (initGains period (diffs closes) / (period : ℚ), 0)).2 = 0 :=
    smooth_preserves_zero_loss period _ _
      (fun d hd => hnd d (List.drop_subset _ _ hd))
  simp [rsiOf, hfin]

/-- Witness for C5 at the all-flat input `[5, 5, 5, 5, 5, 5, 5]`,
`period = 6`. -/
theorem rsi_nondecreasing_eq_100_witness :
    (0 < 6 ∧ 6 + 1 ≤ [(5:ℚ), 5, 5, 5, 5, 5, 5].length ∧
      List.Chain' (· ≤ ·) [(5:ℚ), 5, 5, 5, 5, 5, 5]) ∧
    calculateRSI [5, 5, 5, 5, 5, 5, 5] 6 = 100 :=
  ⟨⟨by decide, by decide, by simp⟩,
    rsi_nondecreasing_eq_100 [5, 5, 5, 5, 5, 5, 5] 6 (by decide) (by decide) (by simp)⟩

/-- C6: for a positive period and sufficient data, `calculateRSI` stays in
the closed interval `[0, 100]`: the running averages are nonnegative, so
either the zero-loss branch answers 100 or `100/(1 + avgGain/avgLoss)` lies
in `(0, 100]`. -/
theorem rsi_bounded (closes : List ℚ) (period : Nat)
    (hp : 0 < period) (hlen : period + 1 ≤ closes.length) :
    0 ≤ calculateRSI closes period ∧ calculateRSI closes period ≤ 100 := by
  rw [calculateRSI, if_neg (not_lt.2 hlen)]
  have hstart1 : 0 ≤ initGains period (diffs closes) / (period : ℚ) :=
    div_nonneg (initGains_nonneg _ _) (by positivity)
  have hstart2 : 0 ≤ initLosses period (diffs closes) / (period : ℚ) :=
    div_nonneg (initLosses_nonneg _ _) (by positivity)
  obtain ⟨hg, hl⟩ := smooth_preserves_nonneg period hp ((diffs closes).drop period)
    (initGains period (diffs closes) / (period : ℚ),
     initLosses period (diffs closes) / (period : ℚ)) hstart1 hstart2
  set avg := ((diffs closes).drop period).foldl (smoothStep period)
    (initGains period (diffs closes) / (period : ℚ),
     initLosses period (diffs closes) / (period : ℚ)) with havg
  rw [rsiOf]
  by_cases hz : avg.2 = 0
  · simp [hz]
  · have hlpos : 0 < avg.2 := lt_of_le_of_ne hl (Ne.symm hz)
    have hrs : 0 ≤ avg.1 / avg.2 := div_nonneg hg hl
    have hdenpos : (0:ℚ) < 1 + avg.1 / avg.2 := by linarith
    have hfracpos : (0:ℚ) < 100 / (1 + avg.1 / avg.2) := by positivity
    have hfracle : 100 / (1 + avg.1 / avg.2) ≤ 100 :=
      div_le_self (by norm_num) (by linarith)
    rw [if_neg hz]
    constructor <;> linarith

/-- Witness for C6 at the input `[1, 2, 3, 4, 5, 6, 5]`, `period = 6`. -/
theorem rsi_bounded_witness :
    (0 < 6 ∧ 6 + 1 ≤ [(1:ℚ), 2, 3, 4, 5, 6, 5].length) ∧
    0 ≤ calculateRSI [1, 2, 3, 4, 5, 6, 5] 6 ∧
    calculateRSI [1, 2, 3, 4, 5, 6, 5] 6 ≤ 100 :=
  ⟨⟨by decide, by decide⟩, rsi_bounded [1, 2, 3, 4, 5, 6, 5] 6 (by decide) (by decide)⟩

/-! ### Staged filtering and the configuration surface -/

/-- C2: when the Stage A reading (1h, period 6) is below 90, the evaluation
of a symbol issues exactly one kline-accessor call, the 1h one — the 4h
series is never fetched. -/
theorem early_exit_single_call (cfg : Config) (fetch : String → String → Nat → List ℚ)
    (stats : String → Option TickerStat) (fundingMap : String → Option ℚ)
    (fundingIntervals : String → Option ℚ) (baseMap : String → Option String)
    (rankMap : String → Option Nat) (symbol : String)
    (h : calculateRSI (fetch symbol "1h" cfg.rsiLimit) 6 < 90) :
    (processSymbolT cfg fetch stats fundingMap fundingIntervals baseMap rankMap symbol).2 =
      [⟨symbol, "1h", cfg.rsiLimit⟩] ∧
    (processSymbolT cfg fetch stats fundingMap fundingIntervals baseMap rankMap symbol).2.length = 1 ∧
    ∀ c ∈ (processSymbolT cfg fetch stats fundingMap fundingIntervals baseMap rankMap symbol).2,
      c.interval ≠ "4h" := by
  have htr : (processSymbolT cfg fetch stats fundingMap fundingIntervals baseMap rankMap symbol).2 =
      [⟨symbol, "1h", cfg.rsiLimit⟩] := by
    simp [processSymbolT, h]
  refine ⟨htr, by rw [htr]; rfl, ?_⟩
  intro c hc
  rw [htr] at hc
  simp only [List.mem_singleton] at hc
  subst hc
  show ("1h" : String) ≠ "4h"
  decide

/-- Witness for C2: a data source answering the empty series, for which the
Stage A reading is 0. -/
theorem early_exit_single_call_witness :
    (calculateRSI ((fun (_ : String) (_ : String) (_ : Nat) => ([] : List ℚ)) "BTCUSDT" "1h" CONFIG.rsiLimit) 6 < 90) ∧
    (processSymbolT CONFIG (fun _ _ _ => []) (fun _ => none) (fun _ => none)
        (fun _ => none) (fun _ => none) (fun _ => none) "BTCUSDT").2 =
      [⟨"BTCUSDT", "1h", CONFIG.rsiLimit⟩] ∧
    (processSymbolT CONFIG (fun _ _ _ => []) (fun _ => none) (fun _ => none)
        (fun _ => none) (fun _ => none) (fun _ => none) "BTCUSDT").2.length = 1 ∧
    ∀ c ∈ (processSymbolT CONFIG (fun _ _ _ => []) (fun _ => none) (fun _ => none)
        (fun _ => none) (fun _ => none) (fun _ => none) "BTCUSDT").2,
      c.interval ≠ "4h" :=
  ⟨by norm_num [calculateRSI],
    early_exit_single_call CONFIG (fun _ _ _ => []) (fun _ => none) (fun _ => none)
      (fun _ => none) (fun _ => none) (fun _ => none) "BTCUSDT"
      (by norm_num [calculateRSI])⟩

/-- C9 counterexample: the claim says the stage thresholds and smoothing
period are configuration options whose change alters the stage comparisons.
But `Config` (the `CONFIG` literal of the source) carries no threshold or
period field: two configurations differing in every field reject the same
symbol whose Stage A reading `500/6 ≈ 83.3` sits between the two thresholds,
because the comparison `rsi1h < 90` is hard-coded. -/
theorem thresholds_not_configurable_counterexample :
    (⟨999999, 35, 1, 1, 1⟩ : Config) ≠ CONFIG ∧
    (processSymbolT CONFIG (fun _ _ _ => [1, 2, 3, 4, 5, 6, 5]) (fun _ => none)
        (fun _ => none) (fun _ => none) (fun _ => none) (fun _ => none) "AAAUSDT").1 = none ∧
    (processSymbolT ⟨999999, 35, 1, 1, 1⟩ (fun _ _ _ => [1, 2, 3, 4, 5, 6, 5]) (fun _ => none)
        (fun _ => none) (fun _ => none) (fun _ => none) (fun _ => none) "AAAUSDT").1 = none := by
  refine ⟨by decide, ?_, ?_⟩ <;>
    norm_num [processSymbolT, calculateRSI, diffs, smoothStep, initGains, initLosses, rsiOf]

/-- C9 as amended: the exposed configuration options are the minimum-volume
floor, the candle lookback limit, the worker concurrency and the two cache
TTLs; the stage thresholds (90, 80) and the smoothing period (6) are
hard-coded, so any two configurations that agree on the lookback limit give
the same per-symbol evaluation. -/
theorem thresholds_hard_coded (cfg cfg' : Config) (hlim : cfg.rsiLimit = cfg'.rsiLimit)
    (fetch : String → String → Nat → List ℚ) (stats : String → Option TickerStat)
    (fundingMap : String → Option ℚ) (fundingIntervals : String → Option ℚ)
    (baseMap : String → Option String) (rankMap : String → Option Nat)
    (symbol : String) :
    processSymbolT cfg fetch stats fundingMap fundingIntervals baseMap rankMap symbol =
      processSymbolT cfg' fetch stats fundingMap fundingIntervals baseMap rankMap symbol ∧
    CONFIG.minVolume = 0 ∧ CONFIG.rsiLimit = 35 ∧ CONFIG.concurrency = 40 ∧
    CONFIG.cacheTTL = 60000 ∧ CONFIG.rankCacheTTL = 3600000 := by
  refine ⟨?_, rfl, rfl, rfl, rfl, rfl⟩
  simp only [processSymbolT, scanRow, hlim]

/-- Witness for C9's amended theorem: `CONFIG` against a configuration
differing in every field but the lookback limit. -/
theorem thresholds_hard_coded_witness :
    (CONFIG.rsiLimit = (⟨5, 35, 1, 2, 3⟩ : Config).rsiLimit) ∧
    processSymbolT CONFIG (fun _ _ _ => []) (fun _ => none) (fun _ => none)
        (fun _ => none) (fun _ => none) (fun _ => none) "ETHUSDT" =
      processSymbolT ⟨5, 35, 1, 2, 3⟩ (fun _ _ _ => []) (fun _ => none) (fun _ => none)
        (fun _ => none) (fun _ => none) (fun _ => none) "ETHUSDT" :=
  ⟨rfl, (thresholds_hard_coded CONFIG ⟨5, 35, 1, 2, 3⟩ rfl (fun _ _ _ => [])
      (fun _ => none) (fun _ => none) (fun _ => none) (fun _ => none) (fun _ => none)
      "ETHUSDT").1⟩

/-! ### Product-feed failure handling -/

/-- C10 counterexample: with a stale nonempty cache (store time 0, read at
the TTL boundary 3600000) and an unsuccessful response payload
(`success = false`), `fetchProductData` returns the empty list, not the
cached stale list the claim promises. -/
theorem product_feed_stale_counterexample :
    (fetchProductData CONFIG 3600000 ⟨[⟨"USDT", "BTC", none, none⟩], 0⟩
        (.payload false none)).1 = [] ∧
    ([⟨"USDT", "BTC", none, none⟩] : List Product) ≠ [] ∧
    ¬ ((3600000 : ℤ) - 0 < CONFIG.rankCacheTTL) := by
  refine ⟨rfl, by decide, by decide⟩

/-- C10 as amended: on a transport or parse error, `fetchProductData` falls
back to whatever the cache holds, stale or not — so an empty list comes back
only when nothing was ever cached; but on an unsuccessful response payload
(no `success` flag or no `data`), it returns the empty list regardless of
the cache contents. -/
theorem product_feed_failure_behavior (cfg : Config) (now : ℤ) (cache : ProductsCache)
    (outcome : FeedOutcome)
    (hstale : ¬ (cache.data ≠ [] ∧ now - cache.timestamp < cfg.rankCacheTTL)) :
    (outcome = .transportError →
      (fetchProductData cfg now cache outcome).1 = cache.data) ∧
    (∀ success data, outcome = .payload success data →
      (success = false ∨ data = none) →
      (fetchProductData cfg now cache outcome).1 = []) := by
  constructor
  · rintro rfl
    simp [fetchProductData, hstale]
  · rintro success data rfl hfail
    rcases hfail with rfl | rfl
    · simp [fetchProductData, hstale]
    · cases success <;> simp [fetchProductData, hstale]

/-- Witness for C10's amended theorem: stale nonempty cache, transport
error. -/
theorem product_feed_failure_behavior_witness :
    (¬ ((⟨[⟨"USDT", "BTC", none, none⟩], 0⟩ : ProductsCache).data ≠ [] ∧
        (3600000 : ℤ) - (⟨[⟨"USDT", "BTC", none, none⟩], 0⟩ : ProductsCache).timestamp <
          CONFIG.rankCacheTTL)) ∧
    (fetchProductData CONFIG 3600000 ⟨[⟨"USDT", "BTC", none, none⟩], 0⟩
        .transportError).1 = [⟨"USDT", "BTC", none, none⟩] :=
  ⟨by decide,
    (product_feed_failure_behavior CONFIG 3600000 ⟨[⟨"USDT", "BTC", none, none⟩], 0⟩
      .transportError (by decide)).1 rfl⟩

/-! ### Rank resolution -/

/-- A base-asset map with no entries, for concrete instantiations. -/
def emptyBaseMap : String → Option String := fun _ => none

/-- A rank map assigning only `TEST ↦ 5`, for concrete instantiations. -/
def demoRankMap : String → Option Nat := fun s => if s = "TEST" then some 5 else none

/-- C8 counterexample: the claim describes the fallback base asset as the
symbol with its QUOTE SUFFIX stripped, but the code computes
`symbol.replace('USDT', '')`, removing the FIRST occurrence. For the symbol
`USDTTEST` (no `USDT` suffix, but a `USDT` prefix) with an empty base-asset
map and a rank map assigning `TEST ↦ 5`, the code resolves rank 5 while the
claimed rule resolves the unresolved marker. -/
theorem resolve_rank_suffix_counterexample :
    resolveRank emptyBaseMap demoRankMap "USDTTEST" = some 5 ∧
    resolveRankSpec emptyBaseMap demoRankMap "USDTTEST" = none ∧
    resolveRank emptyBaseMap demoRankMap "USDTTEST" ≠
      resolveRankSpec emptyBaseMap demoRankMap "USDTTEST" := by
  refine ⟨by decide, by decide, by decide⟩

/-- C8 as amended: with the fallback read as "the symbol with the first
occurrence of `USDT` removed" (instead of "with its quote suffix stripped"),
and for maps of the shape the program builds (nonempty base-asset names,
strictly positive ranks), the code's resolution follows exactly the claimed
chain: base-asset lookup with the replace fallback, then the rank map, then
the `1000`-prefix retry, then the unresolved marker. -/
theorem resolve_rank_follows_spec (baseMap : String → Option String)
    (rankMap : String → Option Nat) (symbol : String)
    (hb : ∀ s b, baseMap s = some b → b ≠ "")
    (hr : ∀ s r, rankMap s = some r → 0 < r) :
    resolveRank baseMap rankMap symbol = resolveRankFirstOcc baseMap rankMap symbol := by
  have step : ∀ base : String,
      (let r0 := rankMap base
       let r1 := if jsFalsyRank r0 && strStartsWith base "1000" then rankMap (strDrop base 4)
         else r0
       if jsFalsyRank r1 then none else r1) =
      (match rankMap base with
       | some r => some r
       | none => if strStartsWith base "1000" then rankMap (strDrop base 4) else none) := by
    intro base
    cases hrk : rankMap base with
    | some r =>
      have hpos : r ≠ 0 := Nat.pos_iff_ne_zero.mp (hr base r hrk)
      simp [jsFalsyRank, hpos]
    | none =>
      cases hst : strStartsWith base "1000" with
      | false => simp [jsFalsyRank, hst]
      | true =>
        cases hrk2 : rankMap (strDrop base 4) with
        | some r =>
          have hpos : r ≠ 0 := Nat.pos_iff_ne_zero.mp (hr _ r hrk2)
          simp [jsFalsyRank, hst, hrk2, hpos]
        | none => simp [jsFalsyRank, hst, hrk2]
  cases hbm : baseMap symbol with
  | none =>
    simp only [resolveRank, resolveRankFirstOcc, hbm]
    exact step (removeFirstStr "USDT" symbol)
  | some b =>
    have hne : b ≠ "" := hb symbol b hbm
    simp only [resolveRank, resolveRankFirstOcc, hbm, if_neg hne]
    exact step b

/-- Witness for C8's amended theorem at the counterexample's maps and
symbol. -/
theorem resolve_rank_follows_spec_witness :
    ((∀ s b, emptyBaseMap s = some b → b ≠ "") ∧
      (∀ s r, demoRankMap s = some r → 0 < r)) ∧
    resolveRank emptyBaseMap demoRankMap "USDTTEST" =
      resolveRankFirstOcc emptyBaseMap demoRankMap "USDTTEST" := by
  have hb : ∀ s b, emptyBaseMap s = some b → b ≠ "" := fun _ _ h => nomatch h
  have hr : ∀ s r, demoRankMap s = some r → 0 < r := by
    intro s r h
    by_cases hs : s = "TEST"
    · simp [demoRankMap, hs] at h
      omega
    · simp [demoRankMap, hs] at h
  exact ⟨⟨hb, hr⟩, resolve_rank_follows_spec emptyBaseMap demoRankMap "USDTTEST" hb hr⟩

/-! ### The rank map -/

theorem buildRankMapAux_eq :
    ∀ (L : List McapEntry) (k : Nat) (m : String → Option Nat) (base : String),
      buildRankMapAux k m L base =
        if jsFalsyRank (m base) then
          (L.findIdx? (fun e => e.base == base) k).elim (m base) (fun i => some (i + 1))
        else m base
  | [], k, m, base => by
    cases h : jsFalsyRank (m base) <;> simp [buildRankMapAux, h]
  | e :: rest, k, m, base => by
    simp only [buildRankMapAux]
    by_cases hfm : jsFalsyRank (m e.base) = true
    · rw [if_pos hfm]
      by_cases hbe : e.base = base
      · subst hbe
        have hup : Function.update m e.base (some (k + 1)) e.base = some (k + 1) :=
          Function.update_same _ _ _
        have hks : jsFalsyRank (some (k + 1)) = false := by simp [jsFalsyRank]
        rw [buildRankMapAux_eq rest (k + 1) _ e.base, hup, hks]
        simp [hfm, List.findIdx?_cons]
      · have hup : Function.update m e.base (some (k + 1)) base = m base :=
          Function.update_noteq (fun h => hbe h.symm) _ _
        rw [buildRankMapAux_eq rest (k + 1) _ base, hup]
        have hpe : (e.base == base) = false := by simp [hbe]
        simp [List.findIdx?_cons, hpe]
    · rw [if_neg hfm]
      rw [buildRankMapAux_eq rest (k + 1) m base]
      by_cases hbe : e.base = base
      · subst hbe
        simp [List.findIdx?_cons, hfm]
      · have hpe : (e.base == base) = false := by simp [hbe]
        simp [List.findIdx?_cons, hpe]

/-- C7: the rank map built from a product feed sends each base asset to the
1-based position of the first entry carrying that base asset in the
market-cap-descending order (`none` when the base asset never occurs); that
order is sorted descending by market cap, and is a permutation of the
qualifying entries — so duplicates of a base asset resolve to their
first-encountered, highest-cap occurrence and later duplicates never
overwrite it. -/
theorem rank_map_first_highest (productList : List Product) (base : String) :
    buildRankMap (sortedEntries productList) base =
      ((sortedEntries productList).findIdx? (fun e => e.base == base) 0).map (· + 1) ∧
    (sortedEntries productList).Pairwise (fun a b => b.mcap ≤ a.mcap) ∧
    (sortedEntries productList).Perm (mcapEntries productList) := by
  refine ⟨?_, ?_, List.mergeSort_perm _ _⟩
  · rw [buildRankMap, buildRankMapAux_eq]
    cases (sortedEntries productList).findIdx? (fun e => e.base == base) 0 <;>
      simp [jsFalsyRank]
  · have htrans : ∀ a b c : McapEntry, decide (b.mcap ≤ a.mcap) = true →
        decide (c.mcap ≤ b.mcap) = true → decide (c.mcap ≤ a.mcap) = true := by
      intro a b c h1 h2
      simp only [decide_eq_true_eq] at h1 h2 ⊢
      linarith
    have htotal : ∀ a b : McapEntry,
        (decide (b.mcap ≤ a.mcap) || decide (a.mcap ≤ b.mcap)) = true := by
      intro a b
      simpa using le_total b.mcap a.mcap
    have hs := List.sorted_mergeSort htrans htotal (mcapEntries productList)
    exact hs.imp (fun h => by simpa using h)

/-! ### The end-to-end pipeline -/

theorem processSymbol_eq (cfg : Config) (fetch : String → String → Nat → List ℚ)
    (stats : String → Option TickerStat) (fundingMap : String → Option ℚ)
    (fundingIntervals : String → Option ℚ) (baseMap : String → Option String)
    (rankMap : String → Option Nat) (symbol : String) :
    processSymbol cfg fetch stats fundingMap fundingIntervals baseMap rankMap symbol =
      if 90 ≤ calculateRSI (fetch symbol "1h" cfg.rsiLimit) 6 ∧
          80 ≤ calculateRSI (fetch symbol "4h" cfg.rsiLimit) 6 then
        some (scanRow cfg fetch stats fundingMap fundingIntervals baseMap rankMap symbol)
      else none := by
  simp only [processSymbol, processSymbolT]
  by_cases h1 : calculateRSI (fetch symbol "1h" cfg.rsiLimit) 6 < 90
  · rw [if_pos h1, if_neg (by rw [not_and_or, not_le]; exact Or.inl h1)]
  · rw [if_neg h1]
    by_cases h4 : calculateRSI (fetch symbol "4h" cfg.rsiLimit) 6 < 80
    · rw [if_pos h4, if_neg (by rw [not_and_or, not_le, not_le]; exact Or.inr h4)]
    · rw [if_neg h4, if_pos ⟨not_lt.mp h1, not_lt.mp h4⟩]

theorem mem_candidateOrder (cfg : Config) (stats : String → Option TickerStat)
    (symbols : List String) (s : String)
    (hmin : cfg.minVolume = 0) (hvol : ∀ x t, stats x = some t → 0 ≤ t.volume) :
    s ∈ candidateOrder cfg stats symbols ↔ s ∈ symbols := by
  have hpass : ∀ x : String, decide (cfg.minVolume ≤ tickerVolume stats x) = true := by
    intro x
    rw [decide_eq_true_iff, hmin, tickerVolume]
    cases hx : stats x with
    | none => simp [jsOr]
    | some t =>
      have := hvol x t hx
      by_cases hz : t.volume = 0 <;> simp [jsOr, hx, hz] <;> linarith
  rw [candidateOrder, List.mem_mergeSort, List.mem_filter]
  simp [hpass]

/-- C1: with the minimum-volume floor at 0 (and nonnegative reported
volumes), the list handed to rendering carries exactly the candidate symbols
whose 1h RSI at period 6 reaches 90 and whose 4h RSI at period 6 reaches 80,
and it is ordered by 24h quote volume descending. -/
theorem scan_results_exact (cfg : Config) (fetch : String → String → Nat → List ℚ)
    (symbols : List String) (baseMap : String → Option String)
    (stats : String → Option TickerStat) (fundingMap : String → Option ℚ)
    (fundingIntervals : String → Option ℚ) (productList : List Product)
    (hmin : cfg.minVolume = 0) (hvol : ∀ x t, stats x = some t → 0 ≤ t.volume) :
    (∀ sym : String,
      (∃ r ∈ scanPipeline cfg fetch symbols baseMap stats fundingMap fundingIntervals
          productList, r.symbol = sym) ↔
      (sym ∈ symbols ∧ 90 ≤ calculateRSI (fetch sym "1h" cfg.rsiLimit) 6 ∧
        80 ≤ calculateRSI (fetch sym "4h" cfg.rsiLimit) 6)) ∧
    (scanPipeline cfg fetch symbols baseMap stats fundingMap fundingIntervals
        productList).Pairwise (fun a b => b.volume ≤ a.volume) := by
  constructor
  · intro sym
    rw [scanPipeline]
    constructor
    · rintro ⟨r, hr, rfl⟩
      rw [List.mem_mergeSort, List.mem_filterMap] at hr
      obtain ⟨s, hs, hps⟩ := hr
      rw [processSymbol_eq] at hps
      by_cases hcond : 90 ≤ calculateRSI (fetch s "1h" cfg.rsiLimit) 6 ∧
          80 ≤ calculateRSI (fetch s "4h" cfg.rsiLimit) 6
      · rw [if_pos hcond] at hps
        obtain rfl := Option.some_injective _ hps
        rw [scanRow]
        exact ⟨(mem_candidateOrder cfg stats symbols s hmin hvol).mp hs, hcond⟩
      · rw [if_neg hcond] at hps
        exact absurd hps (by simp)
    · rintro ⟨hsym, h1, h4⟩
      refine ⟨scanRow cfg fetch stats fundingMap fundingIntervals baseMap
        (buildRankMap (sortedEntries productList)) sym, ?_, rfl⟩
      rw [List.mem_mergeSort, List.mem_filterMap]
      refine ⟨sym, (mem_candidateOrder cfg stats symbols sym hmin hvol).mpr hsym, ?_⟩
      rw [processSymbol_eq, if_pos ⟨h1, h4⟩]
  · have htrans : ∀ a b c : ScanResult, decide (b.volume ≤ a.volume) = true →
        decide (c.volume ≤ b.volume) = true → decide (c.volume ≤ a.volume) = true := by
      intro a b c h1 h2
      simp only [decide_eq_true_eq] at h1 h2 ⊢
      linarith
    have htotal : ∀ a b : ScanResult,
        (decide (b.volume ≤ a.volume) || decide (a.volume ≤ b.volume)) = true := by
      intro a b
      simpa using le_total b.volume a.volume
    rw [scanPipeline]
    exact (List.sorted_mergeSort htrans htotal _).imp (fun h => by simpa using h)

/-- A data source answering a strictly rising seven-candle series for every
request, for concrete instantiations. -/
def demoFetch : String → String → Nat → List ℚ := fun _ _ _ => [1, 2, 3, 4, 5, 6, 7]

/-- An empty ticker map, for concrete instantiations. -/
def noTicker : String → Option TickerStat := fun _ => none

/-- An empty per-symbol rational map, for concrete instantiations. -/
def noRate : String → Option ℚ := fun _ => none

/-- Witness for C1 at a one-symbol candidate list with the default
configuration (whose `minVolume` is 0) and an empty ticker map. -/
theorem scan_results_exact_witness :
    (CONFIG.minVolume = 0 ∧ (∀ x t, noTicker x = some t → 0 ≤ t.volume)) ∧
    (∀ sym : String,
      (∃ r ∈ scanPipeline CONFIG demoFetch ["AAAUSDT"] (fun _ => none) noTicker noRate
          noRate [], r.symbol = sym) ↔
      (sym ∈ ["AAAUSDT"] ∧ 90 ≤ calculateRSI (demoFetch sym "1h" CONFIG.rsiLimit) 6 ∧
        80 ≤ calculateRSI (demoFetch sym "4h" CONFIG.rsiLimit) 6)) ∧
    (scanPipeline CONFIG demoFetch ["AAAUSDT"] (fun _ => none) noTicker noRate
        noRate []).Pairwise (fun a b => b.volume ≤ a.volume) := by
  have hmin : CONFIG.minVolume = 0 := rfl
  have hvol : ∀ x t, noTicker x = some t → 0 ≤ t.volume := fun _ _ h => nomatch h
  exact ⟨⟨hmin, hvol⟩, scan_results_exact CONFIG demoFetch ["AAAUSDT"] (fun _ => none)
    noTicker noRate noRate [] hmin hvol⟩

/-! ### The worker pool -/

theorem coe_filterMap_id_cons (o : Option ℕ) (t : List (Option ℕ)) :
    (↑((o :: t).filterMap id) : Multiset ℕ) = ↑o.toList + ↑(t.filterMap id) := by
  cases o <;> simp [List.filterMap_cons]

theorem filterMap_id_set :
    ∀ (l : List (Option ℕ)) (w : Nat) (a b : Option ℕ), l.get? w = some a →
      (↑((l.set w b).filterMap id) : Multiset ℕ) + ↑a.toList =
        (↑(l.filterMap id) : Multiset ℕ) + ↑b.toList
  | [], w, a, b, h => by simp at h
  | c :: t, 0, a, b, h => by
    obtain rfl : c = a := by simpa using h
    simp only [List.set, coe_filterMap_id_cons]
    abel
  | c :: t, w + 1, a, b, h => by
    have ih := filterMap_id_set t w a b (by simpa using h)
    simp only [List.set, coe_filterMap_id_cons]
    rw [add_assoc, ih, ← add_assoc]

/-- Invariant of the worker pool: the cursor never passes the candidate
count, the indices being processed together with the finished ones are
exactly those below the cursor (each once), and `results` holds exactly the
non-null evaluations of the finished indices, in completion order. -/
def PoolInv (targets : List String) (prc : String → Option ScanResult)
    (s : PoolState) : Prop :=
  s.cursor ≤ targets.length ∧
  (↑(s.pending.filterMap id) + ↑s.done : Multiset ℕ) = Multiset.range s.cursor ∧
  s.results = s.done.filterMap (fun i => prc (targets.getD i ""))

theorem poolInv_init (targets : List String) (prc : String → Option ScanResult)
    (n : Nat) : PoolInv targets prc (initPool n) := by
  refine ⟨Nat.zero_le _, ?_, rfl⟩
  have hrep : (List.replicate n (none : Option ℕ)).filterMap id = [] :=
    List.filterMap_eq_nil_iff.mpr
      (fun a ha => by simpa using List.eq_of_mem_replicate ha)
  simp [initPool, hrep]

theorem poolInv_step (targets : List String) (prc : String → Option ScanResult)
    (s s' : PoolState) (hstep : PoolStep targets prc s s')
    (hinv : PoolInv targets prc s) : PoolInv targets prc s' := by
  obtain ⟨hc, hperm, hres⟩ := hinv
  cases hstep with
  | claim w hw hcur =>
    refine ⟨hcur, ?_, hres⟩
    have hset := filterMap_id_set s.pending w none (some s.cursor) hw
    simp only [Option.toList] at hset
    have hfm : (↑(((s.pending.set w (some s.cursor))).filterMap id) : Multiset ℕ) =
        ↑(s.pending.filterMap id) + ↑[s.cursor] := by simpa using hset
    show (↑((s.pending.set w (some s.cursor)).filterMap id) + ↑s.done : Multiset ℕ) =
      Multiset.range (s.cursor + 1)
    rw [hfm, Multiset.range_succ, ← hperm]
    have : (↑[s.cursor] : Multiset ℕ) = {s.cursor} := rfl
    rw [this]
    rw [← Multiset.singleton_add]
    abel
  | finish w i hw =>
    have hset := filterMap_id_set s.pending w (some i) none hw
    simp only [Option.toList] at hset
    refine ⟨hc, ?_, ?_⟩
    · show (↑((s.pending.set w none).filterMap id) + ↑(s.done ++ [i]) : Multiset ℕ) =
        Multiset.range s.cursor
      rw [← hperm, ← Multiset.coe_add]
      have hset2 : (↑((s.pending.set w none).filterMap id) : Multiset ℕ) + ↑[i] =
          ↑(s.pending.filterMap id) := by simpa using hset
      rw [← hset2]
      abel
    · show s.results ++ (prc (targets.getD i "")).toList =
        (s.done ++ [i]).filterMap (fun j => prc (targets.getD j ""))
      rw [List.filterMap_append, ← hres]
      congr 1

theorem poolInv_reachable (targets : List String) (prc : String → Option ScanResult)
    (n : Nat) (s : PoolState)
    (h : Relation.ReflTransGen (PoolStep targets prc) (initPool n) s) :
    PoolInv targets prc s := by
  induction h with
  | refl => exact poolInv_init targets prc n
  | tail _ hbc ih => exact poolInv_step _ _ _ _ hbc ih

theorem filterMap_getD_range {α β : Type} (l : List α) (f : α → Option β) (d : α) :
    (List.range l.length).filterMap (fun i => f (l.getD i d)) = l.filterMap f := by
  have hmap : (List.range l.length).map (fun i => l.getD i d) = l := by
    apply List.ext_getElem
    · simp
    · intro i h1 h2
      simp only [List.getElem_map, List.getElem_range,
        List.getD_eq_getElem?_getD, List.getElem?_eq_getElem h2, Option.getD_some]
  conv_rhs => rw [← hmap]
  rw [List.filterMap_map]
  rfl

/-- C3: with a fixed deterministic data source, every complete run of the
worker pool — any worker count, any interleaving of claim and finish steps —
processes each candidate index exactly once (none skipped, none twice) and
aggregates, up to arrival order, exactly the per-symbol evaluations of the
candidate list; the collection is therefore the same unordered collection at
concurrency 1 and at any higher concurrency. -/
theorem pool_schedule_independent (cfg : Config) (fetch : String → String → Nat → List ℚ)
    (stats : String → Option TickerStat) (fundingMap : String → Option ℚ)
    (fundingIntervals : String → Option ℚ) (baseMap : String → Option String)
    (rankMap : String → Option Nat) (targets : List String) (n : Nat) (s : PoolState)
    (hrun : Relation.ReflTransGen
      (PoolStep targets (processSymbol cfg fetch stats fundingMap fundingIntervals
        baseMap rankMap))
      (initPool n) s)
    (hfin : PoolFinal targets s) :
    s.done.Perm (List.range targets.length) ∧ s.done.Nodup ∧
    (∀ i < targets.length, i ∈ s.done) ∧
    s.results.Perm (targets.filterMap
      (processSymbol cfg fetch stats fundingMap fundingIntervals baseMap rankMap)) := by
  obtain ⟨hc, hperm, hres⟩ := poolInv_reachable targets
    (processSymbol cfg fetch stats fundingMap fundingIntervals baseMap rankMap) n s hrun
  have hpend : s.pending.filterMap id = [] :=
    List.filterMap_eq_nil_iff.mpr (fun a ha => by simpa using hfin.2 a ha)
  have hcur : s.cursor = targets.length := le_antisymm hc hfin.1
  rw [hpend, hcur] at hperm
  have hdone : s.done.Perm (List.range targets.length) := by
    rw [← Multiset.coe_eq_coe, Multiset.coe_range]
    simpa using hperm
  refine ⟨hdone, hdone.nodup_iff.mpr (List.nodup_range _),
    fun i hi => hdone.mem_iff.mpr (List.mem_range.mpr hi), ?_⟩
  rw [hres]
  exact (hdone.filterMap _).trans (List.Perm.of_eq (filterMap_getD_range _ _ _))

/-- Witness for C3: a complete one-worker run over a single candidate (one
claim step, one finish step), evaluated with the default configuration and
an empty-series data source. -/
theorem pool_schedule_independent_witness :
    (Relation.ReflTransGen
        (PoolStep ["BTCUSDT"]
          (processSymbol CONFIG (fun _ _ _ => []) noTicker noRate noRate (fun _ => none)
            (fun _ => none)))
        (initPool 1) ⟨1, [none], [0], []⟩ ∧
      PoolFinal ["BTCUSDT"] ⟨1, [none], [0], []⟩) ∧
    ([0] : List ℕ).Perm (List.range ["BTCUSDT"].length) ∧ ([0] : List ℕ).Nodup ∧
    (∀ i < ["BTCUSDT"].length, i ∈ ([0] : List ℕ)) ∧
    ([] : List ScanResult).Perm (["BTCUSDT"].filterMap
      (processSymbol CONFIG (fun _ _ _ => []) noTicker noRate noRate (fun _ => none)
        (fun _ => none))) := by
  have h1 : PoolStep ["BTCUSDT"]
      (processSymbol CONFIG (fun _ _ _ => []) noTicker noRate noRate (fun _ => none)
        (fun _ => none))
      (initPool 1) ⟨1, [some 0], [], []⟩ :=
    PoolStep.claim (initPool 1) 0 rfl (by decide)
  have h2 : PoolStep ["BTCUSDT"]
      (processSymbol CONFIG (fun _ _ _ => []) noTicker noRate noRate (fun _ => none)
        (fun _ => none))
      ⟨1, [some 0], [], []⟩ ⟨1, [none], [0], []⟩ :=
    PoolStep.finish ⟨1, [some 0], [], []⟩ 0 0 rfl
  have hrun : Relation.ReflTransGen
      (PoolStep ["BTCUSDT"]
        (processSymbol CONFIG (fun _ _ _ => []) noTicker noRate noRate (fun _ => none)
          (fun _ => none)))
      (initPool 1) ⟨1, [none], [0], []⟩ :=
    Relation.ReflTransGen.head h1 (Relation.ReflTransGen.head h2 Relation.ReflTransGen.refl)
  have hfin : PoolFinal ["BTCUSDT"] ⟨1, [none], [0], []⟩ := by
    refine ⟨by decide, ?_⟩
    intro p hp
    simpa using hp
  exact ⟨⟨hrun, hfin⟩,
    pool_schedule_independent CONFIG (fun _ _ _ => []) noTicker noRate noRate
      (fun _ => none) (fun _ => none) ["BTCUSDT"] 1 ⟨1, [none], [0], []⟩ hrun hfin⟩

end Radar
